import Mathlib

/-!
Shallow embedding of the pipeline-topology transformation core of the
`pipelines-plugin` (file
`src/frontend/packages/pipelines-plugin/src/components/pipelines/pipeline-topology/utils.ts`,
plus the builder-mode hook `useConnectFinally` from the unnamed hooks file), and
proofs about it.

Conventions of the embedding:
- TS arrays become `List`, optional values become `Option`, numbers used for
  node dimensions become `Int` (the height formula can go negative for zero
  tasks), strings stay `String`.
- TS objects become structures.  Fields of the node payloads that the
  transformation core never inspects (status, callbacks, the surrounding
  pipeline / run references, ...) are kept as opaque components (`extraT`,
  `extraD`, `pipeline`, `pipelineRun`) so that object-spread preservation
  (`{...node.data}` / `{...task}`) is expressible.  In the TS source the
  aggregated finally tasks live inside `data.task`; here they are a sibling
  field `finallyTasks` of `NodeData` (structures cannot nest their own type),
  which does not affect any statement below.
- A JS object used as a string-keyed dictionary becomes an association list
  preserving key-insertion order, matching `Object.values` enumeration order.
- Code that can throw (property access on `undefined`) returns `Except`.
-/

/-- Node-kind enumeration, from `NodeType` of `const.ts` (values referenced by
`utils.ts`). -/
inductive NodeType where
  | taskNode
  | spacerNode
  | taskListNode
  | invalidTaskListNode
  | builderNode
  | finallyNode
  | builderFinallyNode
deriving DecidableEq, Repr

/-- Modelled from the spec: the layout constants of `const.ts` (not under
`src/`).  Only the names matter for the theorems below; the concrete values are
nominal. -/
def NODE_HEIGHT : Int := 30

/-- Modelled from the spec: nominal value for the node-width constant of
`const.ts`. -/
def NODE_WIDTH : Int := 120

/-- Modelled from the spec: nominal value for the finally-node padding constant
of `const.ts`. -/
def FINALLY_NODE_PADDING : Int := 30

/-- Modelled from the spec: nominal value for the finally-node vertical-spacing
constant of `const.ts`. -/
def FINALLY_NODE_VERTICAL_SPACING : Int := 20

/-- A task descriptor (`PipelineVisualizationTaskItem` / `PipelineTask`): the
fields the transformation core reads, plus `extraT` standing for all fields it
only copies through object spread. -/
structure TaskData where
  name : String
  runAfter : List String
  isFinallyTask : Bool := false
  disableTooltip : Bool := true
  extraT : String := ""
deriving DecidableEq, Repr

/-- A pipeline run snapshot.  The core only threads it through and (in the
modelled `getFinallyTasksWithStatus`) reads per-task status from it; model the
status lookup as data so equality stays decidable. -/
structure PipelineRunKind where
  taskStatuses : List (String × String) := []
deriving DecidableEq, Repr

/-- Status of a named task in a run snapshot (modelled lookup). -/
def statusOf (pr : PipelineRunKind) (name : String) : String :=
  (pr.taskStatuses.lookup name).getD ""

/-- The `spec` section of a pipeline: the main task list and the optional
`finally` task list.  The TS field is called `finally`; that is a reserved word
here, hence `finallyTasks`. -/
structure PipelineSpec where
  tasks : List TaskData := []
  finallyTasks : Option (List TaskData) := none
deriving DecidableEq, Repr

/-- A pipeline object.  `spec` is optional to model the `pipeline.spec?.`
optional chaining in `connectFinallyTasksToNodes`. -/
structure PipelineKind where
  spec : Option PipelineSpec := none
deriving DecidableEq, Repr

/-- The node payload: the `task` the core inspects plus the components it only
carries along (`pipeline`, `pipelineRun`, the aggregated finally tasks of a
finally node, and `extraD` for everything else, e.g. builder callbacks). -/
structure NodeData where
  task : TaskData
  pipeline : Option PipelineKind := none
  pipelineRun : Option PipelineRunKind := none
  isFinallyTask : Bool := false
  finallyTasks : List TaskData := []
  extraD : String := ""
deriving DecidableEq, Repr

/-- A graph node (`PipelineMixedNodeModel`), field for field as produced by
`createGenericNode`. -/
structure PipelineNode where
  id : String
  data : NodeData
  height : Int
  width : Int
  type : NodeType
deriving DecidableEq, Repr

/-- A graph edge (`PipelineEdgeModel`) as produced by `getEdgesFromNodes`. -/
structure PipelineEdge where
  id : String
  type : String
  source : String
  target : String
deriving DecidableEq, Repr

/-- `createGenericNode(type, width?, height?)(name, data)`: dimensions default
to the node constants when not supplied (`??`). -/
def createGenericNode (type : NodeType) (width0 height0 : Option Int)
    (name : String) (data : NodeData) : PipelineNode :=
  { id := name
    data := data
    height := height0.getD NODE_HEIGHT
    width := width0.getD NODE_WIDTH
    type := type }

/-- `createTaskNode`. -/
def createTaskNode : String → NodeData → PipelineNode :=
  createGenericNode NodeType.taskNode none none

/-- `createSpacerNode` (explicit width 0). -/
def createSpacerNode : String → NodeData → PipelineNode :=
  createGenericNode NodeType.spacerNode (some 0) none

/-- `createTaskListNode`. -/
def createTaskListNode : String → NodeData → PipelineNode :=
  createGenericNode NodeType.taskListNode none none

/-- `createInvalidTaskListNode`. -/
def createInvalidTaskListNode : String → NodeData → PipelineNode :=
  createGenericNode NodeType.invalidTaskListNode none none

/-- `createBuilderNode`. -/
def createBuilderNode : String → NodeData → PipelineNode :=
  createGenericNode NodeType.builderNode none none

/-- `createFinallyNode(height)`. -/
def createFinallyNode (height : Int) : String → NodeData → PipelineNode :=
  createGenericNode NodeType.finallyNode (some (NODE_WIDTH + FINALLY_NODE_PADDING * 2))
    (some height)

/-- `createBuilderFinallyNode(height)`. -/
def createBuilderFinallyNode (height : Int) : String → NodeData → PipelineNode :=
  createGenericNode NodeType.builderFinallyNode (some (NODE_WIDTH + FINALLY_NODE_PADDING * 2))
    (some height)

/-- `getNodeCreator`: the `switch` of `utils.ts`.  Note that
`INVALID_TASK_LIST_NODE`, `FINALLY_NODE` and `BUILDER_FINALLY_NODE` fall into
the `default` branch, which returns `createTaskNode`. -/
def getNodeCreator : NodeType → String → NodeData → PipelineNode
  | NodeType.taskListNode => createTaskListNode
  | NodeType.builderNode => createBuilderNode
  | NodeType.spacerNode => createSpacerNode
  | _ => createTaskNode

/-- Lexicographic character-code comparison; the model of the
`a.localeCompare(b)` sort order. -/
def charListLe : List Char → List Char → Bool
  | [], _ => true
  | _ :: _, [] => false
  | a :: as, b :: bs =>
    if a.toNat < b.toNat then true
    else if b.toNat < a.toNat then false
    else charListLe as bs

/-- String comparison used by the grouping-key sort. -/
def stringLe (a b : String) : Bool :=
  charListLe a.data b.data

/-- Insertion of one string into an already sorted list; building block of the
`[...runAfter].sort((a, b) => a.localeCompare(b))` call (locale order modelled
as lexicographic character-code order). -/
def insertSorted (s : String) : List String → List String
  | [] => [s]
  | t :: ts => if stringLe s t then s :: t :: ts else t :: insertSorted s ts

/-- Sorting of the `runAfter` copy used for the grouping key. -/
def sortStrings (l : List String) : List String :=
  l.foldr insertSorted []

/-- The grouping key of `handleParallelToParallelNodes`: sorted `runAfter`
entries pipe-joined by `reduce` (no initial accumulator, so the first entry
starts the string).  The `[]` case is unreachable because only lists of length
at least 2 are keyed. -/
def groupKey (runAfter : List String) : String :=
  match sortStrings runAfter with
  | [] => ""
  | x :: xs => xs.foldl (fun str ref => str ++ "|" ++ ref) x

/-- One step of filling `multipleRunBeforeMap`: `acc[id].push(...)` with
key-insertion order preserved (new keys go to the back, matching JS object
enumeration order for these non-index keys). -/
def insertRef (m : List (String × List PipelineNode)) (key : String)
    (n : PipelineNode) : List (String × List PipelineNode) :=
  match m with
  | [] => [(key, [n])]
  | (k, ns) :: rest =>
    if k = key then (k, ns ++ [n]) :: rest else (k, ns) :: insertRef rest key n

/-- The reducer body of the `multipleRunBeforeMap` accumulation: only nodes
with more than one `runAfter` entry are bucketed, by `groupKey`. -/
def mrbStep (acc : List (String × List PipelineNode)) (node : PipelineNode) :
    List (String × List PipelineNode) :=
  if node.data.task.runAfter.length > 1 then
    insertRef acc (groupKey node.data.task.runAfter) node
  else acc

/-- The `multipleRunBeforeMap` reduction over all nodes, starting from the
empty dictionary. -/
def multipleRunBeforeMap (nodes : List PipelineNode) :
    List (String × List PipelineNode) :=
  nodes.foldl mrbStep []

/-- `multiParallelToParallelList`: `Object.values(...)` filtered to buckets
with more than one occupant. -/
def multiParallelToParallelList (nodes : List PipelineNode) :
    List (List PipelineNode) :=
  ((multipleRunBeforeMap nodes).map Prod.snd).filter (fun g => g.length > 1)

/-- `names.join('-')`. -/
def joinDash : List String → String
  | [] => ""
  | [x] => x
  | x :: xs => x ++ "-" ++ joinDash xs

/-- The spacer node synthesized for one parallel-to-parallel group:
`parallel-` followed by the member node ids joined in their bucket order, with
the shared `runAfter` of the first member. -/
def spacerFor (p2p : List PipelineNode) : PipelineNode :=
  let runAfter := (p2p.head?.map (fun n => n.data.task.runAfter)).getD []
  let names := p2p.map (fun n => n.id)
  let parallelSpacerName := "parallel-" ++ joinDash names
  createSpacerNode parallelSpacerName
    { task := { name := parallelSpacerName, runAfter := runAfter } }

/-- One `newRunAfterNodeMap[p2pNodeId].push(parallelSpacerName)` step. -/
def pushSpacer (m : List (String × List String)) (id spacerName : String) :
    List (String × List String) :=
  match m with
  | [] => [(id, [spacerName])]
  | (k, ss) :: rest =>
    if k = id then (k, ss ++ [spacerName]) :: rest
    else (k, ss) :: pushSpacer rest id spacerName

/-- The `newRunAfterNodeMap` accumulated over all groups. -/
def buildRunAfterMap (groups : List (List PipelineNode)) :
    List (String × List String) :=
  groups.foldl
    (fun m p2p =>
      let names := p2p.map (fun n => n.id)
      let parallelSpacerName := "parallel-" ++ joinDash names
      names.foldl (fun m2 p2pNodeId => pushSpacer m2 p2pNodeId parallelSpacerName) m)
    []

/-- First-match lookup in the `newRunAfterNodeMap` dictionary. -/
def lookupRunAfter : List (String × List String) → String → Option (List String)
  | [], _ => none
  | (k, v) :: rest, id => if k = id then some v else lookupRunAfter rest id

/-- The per-node update pass of `handleParallelToParallelNodes`: an impacted
node is recreated through `getNodeCreator` with only `task.runAfter` replaced;
every other node is carried over unchanged. -/
def rewriteNode (m : List (String × List String)) (node : PipelineNode) :
    PipelineNode :=
  match lookupRunAfter m node.id with
  | some newRunAfters =>
    if newRunAfters.length > 0 then
      (getNodeCreator node.type) node.id
        { node.data with task := { node.data.task with runAfter := newRunAfters } }
    else node
  | none => node

/-- `handleParallelToParallelNodes` of `utils.ts`.  When no group qualifies the
input is returned as is; otherwise the synthesized spacer nodes (pushed first
in the TS loop) are followed by the updated original nodes in input order. -/
def handleParallelToParallelNodes (nodes : List PipelineNode) :
    List PipelineNode :=
  let groups := multiParallelToParallelList nodes
  if groups.length = 0 then nodes
  else
    let runAfterMap := buildRunAfterMap groups
    groups.map spacerFor ++ nodes.map (rewriteNode runAfterMap)

/-- `tasksToNodes`: task descriptors to task nodes, then parallel
normalization. -/
def tasksToNodes (taskList : List TaskData) (pipeline : Option PipelineKind)
    (pipelineRun : Option PipelineRunKind) : List PipelineNode :=
  handleParallelToParallelNodes
    (taskList.map (fun task =>
      createTaskNode task.name
        { task := task, pipeline := pipeline, pipelineRun := pipelineRun }))

/-- `tasksToBuilderNodes`, stripped of its interactive callbacks (they live in
the opaque payload part). -/
def tasksToBuilderNodes (taskList : List TaskData) : List PipelineNode :=
  taskList.map (fun task => createBuilderNode task.name { task := task })

/-- The per-node body of `getEdgesFromNodes`: `null` for a node without
predecessors, otherwise one edge per `runAfter` entry. -/
def edgesOfNode (node : PipelineNode) : Option (List PipelineEdge) :=
  let target := node.data.task.name
  let runAfter := node.data.task.runAfter
  if runAfter.length = 0 then none
  else
    some (runAfter.map (fun source =>
      { id := source ++ "~to~" ++ target
        type := "edge"
        source := source
        target := target }))

/-- `getEdgesFromNodes`: `_.flatten(...).filter(Boolean)` over the per-node
results drops the `null` entries and splices the per-node edge arrays in
order. -/
def getEdgesFromNodes (nodes : List PipelineNode) : List PipelineEdge :=
  (nodes.filterMap edgesOfNode).flatten

/-- `getFinallyTaskHeight`.  Computed over `Int` because the
`(allTasksLength - 1)` factor is negative for zero tasks. -/
def getFinallyTaskHeight (allTasksLength : Nat) (disableBuilder : Bool) : Int :=
  (allTasksLength : Int) * NODE_HEIGHT +
    ((allTasksLength : Int) - 1) * FINALLY_NODE_VERTICAL_SPACING +
    (if !disableBuilder then NODE_HEIGHT else 0) +
    FINALLY_NODE_PADDING * 2

/-- `_.uniq` on strings: keep the first occurrence of each value. -/
def uniqAux (seen : List String) : List String → List String
  | [] => []
  | x :: xs => if x ∈ seen then uniqAux seen xs else x :: uniqAux (x :: seen) xs

/-- `_.uniq`. -/
def uniqStrings (l : List String) : List String :=
  uniqAux [] l

/-- The reduction inside `getLastRegularTasks`: concatenation of all `runAfter`
lists. -/
def collectRunAfters (regularTasks : List PipelineNode) : List String :=
  regularTasks.foldl (fun acc n => acc ++ n.data.task.runAfter) []

/-- `getLastRegularTasks`: node ids minus every id referenced in some
`runAfter` list (`_.difference` keeps the first list in order). -/
def getLastRegularTasks (regularTasks : List PipelineNode) : List String :=
  let runAfters := uniqStrings (collectRunAfters regularTasks)
  (regularTasks.map (fun n => n.id)).filter (fun id => decide (id ∉ runAfters))

/-- Modelled from the spec: `getFinallyTasksWithStatus` of
`utils/pipeline-utils` (not under `src/`) overlays the per-task run status on
the declared finally tasks, preserving their names and count. -/
def getFinallyTasksWithStatus (pipeline : PipelineKind)
    (pipelineRun : PipelineRunKind) : List TaskData :=
  ((pipeline.spec.map (fun s => s.finallyTasks.getD [])).getD []).map
    (fun t => { t with extraT := statusOf pipelineRun t.name })

/-- The error value standing for the `TypeError` thrown by
`pipeline.spec?.finally` when `pipeline` itself is `undefined`. -/
def typeErrorUndefinedPipeline : String :=
  "TypeError: cannot read spec of undefined"

/-- `connectFinallyTasksToNodes`.  The guard `!pipeline.spec?.finally` lets a
present-but-empty `finally` array through (`![]` is `false` in JS), so only an
absent `spec` or an absent `finally` field short-circuits to the identity; and
`pipeline` itself is dereferenced without a guard, so an absent pipeline
throws. -/
def connectFinallyTasksToNodes (nodes : List PipelineNode)
    (pipeline : Option PipelineKind) (pipelineRun : Option PipelineRunKind) :
    Except String (List PipelineNode) :=
  match pipeline with
  | none => Except.error typeErrorUndefinedPipeline
  | some p =>
    match p.spec with
    | none => Except.ok nodes
    | some spec =>
      match spec.finallyTasks with
      | none => Except.ok nodes
      | some declaredFinally =>
        let finallyTasks :=
          match pipelineRun with
          | some pr => getFinallyTasksWithStatus p pr
          | none => declaredFinally
        let regularRunAfters := getLastRegularTasks nodes
        let name := "finally-node"
        let finallyGroupNode :=
          createFinallyNode (getFinallyTaskHeight finallyTasks.length true) name
            { task := { name := name, runAfter := regularRunAfters, isFinallyTask := true }
              pipeline := some p
              pipelineRun := pipelineRun
              isFinallyTask := true
              finallyTasks := finallyTasks.map (fun ft => { ft with disableTooltip := false }) }
        Except.ok (nodes ++ [finallyGroupNode])

/-- Modelled from the spec: `getPipelineTasks` of `utils/pipeline-utils` (not
under `src/`) flattens the pipeline into the ordered list of main-task
descriptors, overlaying run status when a run is given; names are preserved. -/
def getPipelineTasks (pipeline : PipelineKind)
    (pipelineRun : Option PipelineRunKind) : List TaskData :=
  ((pipeline.spec.map (fun s => s.tasks)).getD []).map
    (fun t =>
      match pipelineRun with
      | some pr => { t with extraT := statusOf pr t.name }
      | none => t)

/-- `getTopologyNodesEdges`: task extraction, node synthesis plus parallel
normalization, finally aggregation, then edge derivation over the final node
list. -/
def getTopologyNodesEdges (pipeline : PipelineKind)
    (pipelineRun : Option PipelineRunKind) :
    Except String (List PipelineNode × List PipelineEdge) :=
  let taskList := getPipelineTasks pipeline pipelineRun
  let taskNodes := tasksToNodes taskList (some pipeline) pipelineRun
  match connectFinallyTasksToNodes taskNodes (some pipeline) pipelineRun with
  | Except.error e => Except.error e
  | Except.ok nodes => Except.ok (nodes, getEdgesFromNodes nodes)

/-- The builder-mode task group handed to `useConnectFinally` (real finally
tasks plus not-yet-chosen finally list placeholders). -/
structure PipelineBuilderTaskGroup where
  finallyTasks : List TaskData := []
  finallyListTasks : List TaskData := []
deriving DecidableEq, Repr

/-- The node construction of the builder-mode hook `useConnectFinally` (from
the unnamed hooks source file), stripped of React state and callbacks: one
builder-finally aggregate whose height includes the editable builder row
(`disableBuilder = false`) and whose `runAfter` is the sink set of the given
nodes. -/
def useConnectFinally (nodes : List PipelineNode)
    (taskGroup : PipelineBuilderTaskGroup) : PipelineNode :=
  let allTasksLength := taskGroup.finallyTasks.length + taskGroup.finallyListTasks.length
  let finallyNodeName :=
    "finally-node-" ++ toString taskGroup.finallyTasks.length ++ "-" ++
      toString taskGroup.finallyListTasks.length
  let regularRunAfters := getLastRegularTasks nodes
  createBuilderFinallyNode (getFinallyTaskHeight allTasksLength false) finallyNodeName
    { task := { name := finallyNodeName, runAfter := regularRunAfters, isFinallyTask := true }
      isFinallyTask := true
      finallyTasks := taskGroup.finallyTasks }

/-- Spec-side definition, following the spec words only: the sinks of the main
graph are the node ids not referenced as a predecessor by any node. -/
def specSinks (nodes : List PipelineNode) : List String :=
  (nodes.map (fun n => n.id)).filter
    (fun id => decide (∀ n ∈ nodes, id ∉ n.data.task.runAfter))

/-- Spec-side definition, following the spec words only: one edge per
(predecessor, node) pair across all nodes. -/
def specEdges (nodes : List PipelineNode) : List PipelineEdge :=
  nodes.flatMap (fun node =>
    node.data.task.runAfter.map (fun source =>
      { id := source ++ "~to~" ++ node.data.task.name
        type := "edge"
        source := source
        target := node.data.task.name }))

/-- Spec-side definition, following the spec words only: the finally-aggregate
height formula `count*nodeHeight + (count-1)*verticalSpacing + (+1 nodeHeight
if builder row present) + 2*padding`. -/
def specFinallyHeight (count : Nat) (builderRow : Bool) : Int :=
  (count : Int) * NODE_HEIGHT + ((count : Int) - 1) * FINALLY_NODE_VERTICAL_SPACING +
    (if builderRow then NODE_HEIGHT else 0) + 2 * FINALLY_NODE_PADDING

/-! Basic facts about the node constructors. -/

/-- Every constructor returned by `getNodeCreator` uses the given name as the
node id. -/
theorem getNodeCreator_id (t : NodeType) (name : String) (d : NodeData) :
    (getNodeCreator t name d).id = name := by
  cases t <;> rfl

/-- Every constructor returned by `getNodeCreator` stores the given payload
unchanged. -/
theorem getNodeCreator_data (t : NodeType) (name : String) (d : NodeData) :
    (getNodeCreator t name d).data = d := by
  cases t <;> rfl

/-- The rewrite pass never changes a node id. -/
theorem rewriteNode_id (m : List (String × List String)) (n : PipelineNode) :
    (rewriteNode m n).id = n.id := by
  unfold rewriteNode
  cases lookupRunAfter m n.id with
  | none => rfl
  | some rs =>
    by_cases h : rs.length > 0
    · simp only [if_pos h]
      exact getNodeCreator_id n.type n.id _
    · simp only [if_neg h]

/-! Edge derivation: `getEdgesFromNodes` coincides with the spec description
(one edge per (predecessor, node) pair). -/

theorem getEdgesFromNodes_cons (n : PipelineNode) (ns : List PipelineNode) :
    getEdgesFromNodes (n :: ns) =
      (n.data.task.runAfter.map (fun source =>
        ({ id := source ++ "~to~" ++ n.data.task.name
           type := "edge"
           source := source
           target := n.data.task.name } : PipelineEdge))) ++ getEdgesFromNodes ns := by
  unfold getEdgesFromNodes edgesOfNode
  cases h : n.data.task.runAfter with
  | nil => simp [List.filterMap_cons, h]
  | cons a l => simp [List.filterMap_cons, h]

theorem specEdges_length (nodes : List PipelineNode) :
    (specEdges nodes).length =
      (nodes.map (fun n => n.data.task.runAfter.length)).sum := by
  induction nodes with
  | nil => rfl
  | cons n ns ih =>
    simp only [specEdges, List.flatMap_cons, List.length_append, List.length_map,
      List.map_cons, List.sum_cons] at ih ⊢
    omega

/-- C6. For every node list, edge derivation produces exactly one edge per
(predecessor, node) pair across all nodes (in order, with id
`source~to~target`, source the predecessor and target the task name), hence
exactly as many edges as the total length of all `runAfter` lists; a node with
an empty `runAfter` contributes zero edges. -/
theorem getEdgesFromNodes_spec (nodes : List PipelineNode) :
    getEdgesFromNodes nodes = specEdges nodes ∧
      (getEdgesFromNodes nodes).length =
        (nodes.map (fun n => n.data.task.runAfter.length)).sum := by
  have heq : getEdgesFromNodes nodes = specEdges nodes := by
    induction nodes with
    | nil => rfl
    | cons n ns ih =>
      rw [getEdgesFromNodes_cons, ih]
      simp [specEdges]
  exact ⟨heq, heq ▸ specEdges_length nodes⟩

/-- C10. `connectFinallyTasksToNodes` is not total in its optional pipeline
argument: with the pipeline absent it fails with the modelled `TypeError`
(raised by the unguarded `pipeline.spec` access) for every node list and run,
and in particular never returns a node list. -/
theorem connectFinallyTasksToNodes_undefined_pipeline
    (nodes : List PipelineNode) (pipelineRun : Option PipelineRunKind) :
    connectFinallyTasksToNodes nodes none pipelineRun =
        Except.error typeErrorUndefinedPipeline ∧
      ∀ out, connectFinallyTasksToNodes nodes none pipelineRun ≠ Except.ok out := by
  refine ⟨rfl, ?_⟩
  intro out h
  exact Except.noConfusion h

/-- C7. The full transform is deterministic: identical pipeline / run inputs
produce identical node and edge lists (synthetic ids included), because the
whole composition is a pure function of its inputs. -/
theorem getTopologyNodesEdges_deterministic (p1 p2 : PipelineKind)
    (r1 r2 : Option PipelineRunKind) (hp : p1 = p2) (hr : r1 = r2) :
    getTopologyNodesEdges p1 r1 = getTopologyNodesEdges p2 r2 := by
  rw [hp, hr]

/-- A pipeline for the determinism witness: two tasks behind a shared pair of
predecessors, plus a finally task, so the run exercises spacer synthesis and
finally aggregation. -/
def witnessPipeline : PipelineKind :=
  { spec := some
      { tasks :=
          [{ name := "build", runAfter := [] },
           { name := "scan", runAfter := ["build"] },
           { name := "test", runAfter := ["build", "scan"] },
           { name := "lint", runAfter := ["build", "scan"] }],
        finallyTasks := some [{ name := "cleanup", runAfter := [] }] } }

/-- Witness for C7 at a concrete pipeline. -/
theorem getTopologyNodesEdges_deterministic_witness :
    getTopologyNodesEdges witnessPipeline none = getTopologyNodesEdges witnessPipeline none :=
  getTopologyNodesEdges_deterministic witnessPipeline witnessPipeline none none rfl rfl

/-! Sink computation: `getLastRegularTasks` coincides with the spec description
(ids not referenced as a predecessor by any node). -/

theorem mem_uniqAux (x : String) :
    ∀ (l : List String) (seen : List String), x ∈ uniqAux seen l ↔ x ∈ l ∧ x ∉ seen := by
  intro l
  induction l with
  | nil => intro seen; simp [uniqAux]
  | cons a as ih =>
    intro seen
    unfold uniqAux
    by_cases ha : a ∈ seen
    · rw [if_pos ha, ih seen]
      constructor
      · rintro ⟨hx, hs⟩
        exact ⟨List.mem_cons_of_mem a hx, hs⟩
      · rintro ⟨hx, hs⟩
        rcases List.mem_cons.mp hx with h | h
        · exact absurd ha (h ▸ hs)
        · exact ⟨h, hs⟩
    · rw [if_neg ha]
      constructor
      · intro hx
        rcases List.mem_cons.mp hx with h | h
        · exact ⟨h ▸ List.mem_cons_self a as, h ▸ ha⟩
        · obtain ⟨h1, h2⟩ := (ih (a :: seen)).mp h
          exact ⟨List.mem_cons_of_mem a h1, fun hs => h2 (List.mem_cons_of_mem a hs)⟩
      · rintro ⟨hx, hs⟩
        rcases List.mem_cons.mp hx with h | h
        · exact h ▸ List.mem_cons_self x _
        · by_cases hxa : x = a
          · exact hxa ▸ List.mem_cons_self a _
          · exact List.mem_cons_of_mem a
              ((ih (a :: seen)).mpr ⟨h, fun hm => by
                rcases List.mem_cons.mp hm with h2 | h2
                · exact hxa h2
                · exact hs h2⟩)

theorem mem_uniqStrings (x : String) (l : List String) :
    x ∈ uniqStrings l ↔ x ∈ l := by
  unfold uniqStrings
  rw [mem_uniqAux]
  simp

theorem mem_collectRunAfters_aux (x : String) :
    ∀ (nodes : List PipelineNode) (acc : List String),
      x ∈ nodes.foldl (fun acc n => acc ++ n.data.task.runAfter) acc ↔
        x ∈ acc ∨ ∃ n ∈ nodes, x ∈ n.data.task.runAfter := by
  intro nodes
  induction nodes with
  | nil => intro acc; simp
  | cons m ms ih =>
    intro acc
    rw [List.foldl_cons, ih]
    simp only [List.mem_append, List.mem_cons]
    constructor
    · rintro ((h | h) | ⟨n, hn, hx⟩)
      · exact Or.inl h
      · exact Or.inr ⟨m, Or.inl rfl, h⟩
      · exact Or.inr ⟨n, Or.inr hn, hx⟩
    · rintro (h | ⟨n, hn | hn, hx⟩)
      · exact Or.inl (Or.inl h)
      · exact Or.inl (Or.inr (hn ▸ hx))
      · exact Or.inr ⟨n, hn, hx⟩

theorem mem_collectRunAfters (x : String) (nodes : List PipelineNode) :
    x ∈ collectRunAfters nodes ↔ ∃ n ∈ nodes, x ∈ n.data.task.runAfter := by
  unfold collectRunAfters
  rw [mem_collectRunAfters_aux]
  simp

/-- The code sink computation agrees with the spec-worded one on every node
list. -/
theorem getLastRegularTasks_eq_specSinks (nodes : List PipelineNode) :
    getLastRegularTasks nodes = specSinks nodes := by
  unfold getLastRegularTasks specSinks
  refine List.filter_congr ?_
  intro id hid
  have : (id ∉ uniqStrings (collectRunAfters nodes)) ↔
      (∀ n ∈ nodes, id ∉ n.data.task.runAfter) := by
    rw [mem_uniqStrings, mem_collectRunAfters]
    push_neg
    rfl
  rw [decide_eq_decide]
  exact this

/-! Finally aggregation. -/

/-- Shape of `connectFinallyTasksToNodes` when the pipeline declares a
`finally` list: exactly one aggregate node is appended, named `finally-node`,
of finally type, with the sink ids as `runAfter` and the viewer-mode height
(no builder row). -/
theorem connectFinallyTasksToNodes_shape (nodes : List PipelineNode)
    (p : PipelineKind) (spec : PipelineSpec) (fs : List TaskData)
    (pr : Option PipelineRunKind)
    (h1 : p.spec = some spec) (h2 : spec.finallyTasks = some fs) :
    ∃ fnode,
      connectFinallyTasksToNodes nodes (some p) pr = Except.ok (nodes ++ [fnode]) ∧
        fnode.id = "finally-node" ∧
        fnode.type = NodeType.finallyNode ∧
        fnode.data.task.runAfter = getLastRegularTasks nodes ∧
        fnode.height = getFinallyTaskHeight fs.length true := by
  unfold connectFinallyTasksToNodes
  simp only [h1, h2]
  cases pr with
  | none =>
    refine ⟨_, rfl, rfl, rfl, rfl, rfl⟩
  | some r =>
    have hlen : (getFinallyTasksWithStatus p r).length = fs.length := by
      unfold getFinallyTasksWithStatus
      rw [h1]
      simp [h2]
    exact ⟨_, rfl, rfl, rfl, rfl, by simp [createFinallyNode, createGenericNode, hlen]⟩

/-- C2. For every node list and every pipeline that declares a finally list,
exactly one aggregate node named `finally-node` is appended and its `runAfter`
equals the sinks of the main graph in the spec sense: the node ids not
referenced as a predecessor by any node. -/
theorem connectFinallyTasksToNodes_sinks (nodes : List PipelineNode)
    (p : PipelineKind) (spec : PipelineSpec) (fs : List TaskData)
    (pr : Option PipelineRunKind)
    (h1 : p.spec = some spec) (h2 : spec.finallyTasks = some fs) (h3 : fs ≠ []) :
    ∃ fnode,
      connectFinallyTasksToNodes nodes (some p) pr = Except.ok (nodes ++ [fnode]) ∧
        fnode.data.task.runAfter = specSinks nodes ∧
        fnode.id = "finally-node" := by
  obtain ⟨fnode, heq, hid, htype, hra, hh⟩ :=
    connectFinallyTasksToNodes_shape nodes p spec fs pr h1 h2
  exact ⟨fnode, heq, by rw [hra, getLastRegularTasks_eq_specSinks], hid⟩

/-- A sink-example node named A with no predecessor. -/
def sinkNodeA : PipelineNode :=
  createTaskNode "A" { task := { name := "A", runAfter := [] } }

/-- A sink-example node named B running after A. -/
def sinkNodeB : PipelineNode :=
  createTaskNode "B" { task := { name := "B", runAfter := ["A"] } }

/-- A sink-example node named C running after A. -/
def sinkNodeC : PipelineNode :=
  createTaskNode "C" { task := { name := "C", runAfter := ["A"] } }

/-- A finally list with one task, used by several concrete examples. -/
def exampleFinallyTasks : List TaskData :=
  [{ name := "cleanup", runAfter := [] }]

/-- The spec section holding `exampleFinallyTasks`. -/
def exampleSpecWithFinally : PipelineSpec :=
  { tasks := [], finallyTasks := some exampleFinallyTasks }

/-- A pipeline with a non-empty finally list. -/
def examplePipelineWithFinally : PipelineKind :=
  { spec := some exampleSpecWithFinally }

/-- Witness for C2: on `{A: [], B: [A], C: [A]}` the aggregate runs after the
sinks `[B, C]`, not `[A]`. -/
theorem connectFinallyTasksToNodes_sinks_witness :
    (∃ fnode,
      connectFinallyTasksToNodes [sinkNodeA, sinkNodeB, sinkNodeC]
          (some examplePipelineWithFinally) none =
          Except.ok ([sinkNodeA, sinkNodeB, sinkNodeC] ++ [fnode]) ∧
        fnode.data.task.runAfter = specSinks [sinkNodeA, sinkNodeB, sinkNodeC] ∧
        fnode.id = "finally-node") ∧
      specSinks [sinkNodeA, sinkNodeB, sinkNodeC] = ["B", "C"] :=
  ⟨connectFinallyTasksToNodes_sinks [sinkNodeA, sinkNodeB, sinkNodeC]
      examplePipelineWithFinally exampleSpecWithFinally exampleFinallyTasks none
      rfl rfl (by decide),
    by decide⟩

/-- A pipeline whose finally list is present but empty. -/
def pipelineEmptyFinally : PipelineKind :=
  { spec := some { tasks := [], finallyTasks := some [] } }

/-- Counterexample for C4: a present-but-empty finally list is NOT the
identity transform; an aggregate node with zero finally tasks is still
appended (`![]` is `false` in JS, so the guard does not fire). -/
theorem connectFinallyTasksToNodes_emptyFinally_cex :
    connectFinallyTasksToNodes [] (some pipelineEmptyFinally) none ≠ Except.ok [] := by
  intro h
  obtain ⟨fnode, heq, hid, htype, hra, hh⟩ :=
    connectFinallyTasksToNodes_shape [] pipelineEmptyFinally
      { tasks := [], finallyTasks := some [] } [] none rfl rfl
  rw [heq] at h
  simp at h

/-- C4 amended: `connectFinallyTasksToNodes` is the identity transform exactly
when the pipeline declares no finally field at all (absent `spec` or absent
`finally`); a present-but-empty list still appends an aggregate node. -/
theorem connectFinallyTasksToNodes_noFinally_identity (nodes : List PipelineNode)
    (p : PipelineKind) (pr : Option PipelineRunKind)
    (h : ∀ s, p.spec = some s → s.finallyTasks = none) :
    connectFinallyTasksToNodes nodes (some p) pr = Except.ok nodes := by
  unfold connectFinallyTasksToNodes
  cases hs : p.spec with
  | none => simp [hs]
  | some s => simp [hs, h s hs]

/-- A pipeline with a task but no finally field. -/
def pipelineNoFinally : PipelineKind :=
  { spec := some { tasks := [{ name := "t", runAfter := [] }], finallyTasks := none } }

/-- Witness for the amended C4 at a concrete pipeline without finally field. -/
theorem connectFinallyTasksToNodes_noFinally_identity_witness :
    connectFinallyTasksToNodes [] (some pipelineNoFinally) none = Except.ok [] :=
  connectFinallyTasksToNodes_noFinally_identity [] pipelineNoFinally none
    (fun s hs => by cases hs; rfl)

/-- C9. The finally-aggregate height follows the spec formula
`count*nodeHeight + (count-1)*verticalSpacing + (builder row: +nodeHeight) +
2*padding`; the viewer-mode aggregate of `connectFinallyTasksToNodes` uses the
no-builder-row variant and the builder-mode aggregate of `useConnectFinally`
includes the builder row. -/
theorem finallyAggregate_height (n : Nat) (disableBuilder : Bool)
    (nodes : List PipelineNode) (p : PipelineKind) (spec : PipelineSpec)
    (fs : List TaskData) (g : PipelineBuilderTaskGroup)
    (h1 : p.spec = some spec) (h2 : spec.finallyTasks = some fs) :
    getFinallyTaskHeight n disableBuilder = specFinallyHeight n (!disableBuilder) ∧
      (∃ fnode,
        connectFinallyTasksToNodes nodes (some p) none = Except.ok (nodes ++ [fnode]) ∧
          fnode.height = specFinallyHeight fs.length false) ∧
      (useConnectFinally nodes g).height =
        specFinallyHeight (g.finallyTasks.length + g.finallyListTasks.length) true := by
  have hform : ∀ (k : Nat) (d : Bool),
      getFinallyTaskHeight k d = specFinallyHeight k (!d) := by
    intro k d
    cases d <;> simp [getFinallyTaskHeight, specFinallyHeight] <;> ring
  refine ⟨hform n disableBuilder, ?_, ?_⟩
  · obtain ⟨fnode, heq, hid, htype, hra, hh⟩ :=
      connectFinallyTasksToNodes_shape nodes p spec fs none h1 h2
    refine ⟨fnode, heq, ?_⟩
    rw [hh, hform fs.length true]
    rfl
  · unfold useConnectFinally
    simp only [createBuilderFinallyNode, createGenericNode, Option.getD_some]
    rw [hform (g.finallyTasks.length + g.finallyListTasks.length) false]
    rfl

/-- A builder task group with one finally task and one placeholder. -/
def exampleTaskGroup : PipelineBuilderTaskGroup :=
  { finallyTasks := [{ name := "cleanup", runAfter := [] }]
    finallyListTasks := [{ name := "finally-list-abc123", runAfter := [] }] }

/-- Witness for C9 at concrete counts and a concrete pipeline. -/
theorem finallyAggregate_height_witness :
    getFinallyTaskHeight 2 true = specFinallyHeight 2 (!true) ∧
      (∃ fnode,
        connectFinallyTasksToNodes [sinkNodeA] (some examplePipelineWithFinally) none =
            Except.ok ([sinkNodeA] ++ [fnode]) ∧
          fnode.height = specFinallyHeight exampleFinallyTasks.length false) ∧
      (useConnectFinally [sinkNodeA] exampleTaskGroup).height =
        specFinallyHeight
          (exampleTaskGroup.finallyTasks.length + exampleTaskGroup.finallyListTasks.length)
          true :=
  finallyAggregate_height 2 true [sinkNodeA] examplePipelineWithFinally
    exampleSpecWithFinally exampleFinallyTasks exampleTaskGroup rfl rfl

/-! Parallel-to-parallel normalization on a single two-node group.  Note that
`pre ++ A :: mid ++ B :: post` groups as `(pre ++ A :: mid) ++ B :: post`. -/

theorem pushSpacer_nil (id s : String) : pushSpacer [] id s = [(id, [s])] := rfl

theorem pushSpacer_cons (k : String) (ss : List String)
    (rest : List (String × List String)) (id s : String) :
    pushSpacer ((k, ss) :: rest) id s =
      if k = id then (k, ss ++ [s]) :: rest else (k, ss) :: pushSpacer rest id s := rfl

theorem lookupRunAfter_cons (k : String) (v : List String)
    (rest : List (String × List String)) (id : String) :
    lookupRunAfter ((k, v) :: rest) id =
      if k = id then some v else lookupRunAfter rest id := rfl

/-- Nodes with at most one predecessor never enter the grouping dictionary. -/
theorem foldl_mrbStep_skip (l : List PipelineNode) :
    ∀ (acc : List (String × List PipelineNode)),
      (∀ n ∈ l, n.data.task.runAfter.length ≤ 1) → l.foldl mrbStep acc = acc := by
  induction l with
  | nil => intro acc h; rfl
  | cons a as ih =>
    intro acc h
    rw [List.foldl_cons]
    have ha : ¬ (a.data.task.runAfter.length > 1) := by
      have := h a (List.mem_cons_self a as)
      omega
    rw [show mrbStep acc a = acc from if_neg ha]
    exact ih acc (fun n hn => h n (List.mem_cons_of_mem a hn))

/-- With exactly the two nodes A and B carrying a (shared) multi-element
`runAfter`, the grouping dictionary holds exactly one bucket `[A, B]`. -/
theorem multipleRunBeforeMap_pair (pre mid post : List PipelineNode)
    (A B : PipelineNode) (x y : String)
    (hA : A.data.task.runAfter = [x, y]) (hB : B.data.task.runAfter = [x, y])
    (hothers : ∀ n ∈ pre ++ mid ++ post, n.data.task.runAfter.length ≤ 1) :
    multipleRunBeforeMap (pre ++ A :: mid ++ B :: post) =
      [(groupKey [x, y], [A, B])] := by
  have hpre : ∀ n ∈ pre, n.data.task.runAfter.length ≤ 1 := by
    intro n hn; exact hothers n (by simp [hn])
  have hmid : ∀ n ∈ mid, n.data.task.runAfter.length ≤ 1 := by
    intro n hn; exact hothers n (by simp [hn])
  have hpost : ∀ n ∈ post, n.data.task.runAfter.length ≤ 1 := by
    intro n hn; exact hothers n (by simp [hn])
  have hstepA : mrbStep [] A = [(groupKey [x, y], [A])] := by
    unfold mrbStep
    rw [hA]
    rfl
  have hstepB : mrbStep [(groupKey [x, y], [A])] B = [(groupKey [x, y], [A, B])] := by
    unfold mrbStep
    rw [hB]
    simp [insertRef]
  have hAmid : List.foldl mrbStep [] (A :: mid) = [(groupKey [x, y], [A])] := by
    rw [List.foldl_cons, hstepA]
    exact foldl_mrbStep_skip mid _ hmid
  unfold multipleRunBeforeMap
  rw [List.foldl_append, List.foldl_append, foldl_mrbStep_skip pre [] hpre, hAmid,
    List.foldl_cons, hstepB]
  exact foldl_mrbStep_skip post _ hpost

/-- Unimpacted nodes (ids outside the rewrite dictionary built for the pair)
are carried over unchanged by the update pass. -/
theorem map_rewriteNode_skip (m : List (String × List String))
    (l : List PipelineNode)
    (h : ∀ n ∈ l, lookupRunAfter m n.id = none) :
    l.map (rewriteNode m) = l := by
  have hid : ∀ n ∈ l, rewriteNode m n = n := by
    intro n hn
    unfold rewriteNode
    rw [h n hn]
  calc l.map (rewriteNode m) = l.map id := List.map_congr_left hid
    _ = l := List.map_id l

/-- The full output of `handleParallelToParallelNodes` on a list whose only
multi-predecessor nodes are the two group members A and B (distinct ids, all
other ids different from both): one spacer first, then the original order with
A and B recreated to run after the spacer. -/
theorem handleParallelToParallelNodes_pair (pre mid post : List PipelineNode)
    (A B : PipelineNode) (x y : String)
    (hA : A.data.task.runAfter = [x, y]) (hB : B.data.task.runAfter = [x, y])
    (hothers : ∀ n ∈ pre ++ mid ++ post, n.data.task.runAfter.length ≤ 1)
    (hAB : A.id ≠ B.id)
    (hids : ∀ n ∈ pre ++ mid ++ post, n.id ≠ A.id ∧ n.id ≠ B.id) :
    handleParallelToParallelNodes (pre ++ A :: mid ++ B :: post) =
      spacerFor [A, B] ::
        (pre ++
          (getNodeCreator A.type) A.id
              { A.data with task := { A.data.task with
                  runAfter := ["parallel-" ++ (A.id ++ "-" ++ B.id)] } } ::
            mid ++
              (getNodeCreator B.type) B.id
                  { B.data with task := { B.data.task with
                      runAfter := ["parallel-" ++ (A.id ++ "-" ++ B.id)] } } ::
                post) := by
  have hgroups : multiParallelToParallelList (pre ++ A :: mid ++ B :: post) = [[A, B]] := by
    unfold multiParallelToParallelList
    rw [multipleRunBeforeMap_pair pre mid post A B x y hA hB hothers]
    rfl
  set s := "parallel-" ++ (A.id ++ "-" ++ B.id) with hs
  have hjoin : "parallel-" ++ joinDash [A.id, B.id] = s := rfl
  have hmap : buildRunAfterMap [[A, B]] = [(A.id, [s]), (B.id, [s])] := by
    unfold buildRunAfterMap
    simp only [List.foldl_cons, List.foldl_nil, List.map_cons, List.map_nil]
    rw [hjoin, pushSpacer_nil, pushSpacer_cons, if_neg hAB, pushSpacer_nil]
  have hrwA : rewriteNode [(A.id, [s]), (B.id, [s])] A =
      (getNodeCreator A.type) A.id
        { A.data with task := { A.data.task with runAfter := [s] } } := by
    unfold rewriteNode
    rw [lookupRunAfter_cons, if_pos rfl]
    simp
  have hrwB : rewriteNode [(A.id, [s]), (B.id, [s])] B =
      (getNodeCreator B.type) B.id
        { B.data with task := { B.data.task with runAfter := [s] } } := by
    unfold rewriteNode
    rw [lookupRunAfter_cons, if_neg hAB, lookupRunAfter_cons, if_pos rfl]
    simp
  have hnone : ∀ n ∈ pre ++ mid ++ post,
      lookupRunAfter [(A.id, [s]), (B.id, [s])] n.id = none := by
    intro n hn
    obtain ⟨h1, h2⟩ := hids n hn
    rw [lookupRunAfter_cons, if_neg (fun h => h1 h.symm),
      lookupRunAfter_cons, if_neg (fun h => h2 h.symm)]
    rfl
  unfold handleParallelToParallelNodes
  rw [hgroups]
  simp only [List.length_cons, List.length_nil]
  rw [if_neg (by omega)]
  rw [hmap]
  simp only [List.map_cons, List.map_nil, List.singleton_append]
  rw [List.map_append, List.map_cons, List.map_append, List.map_cons]
  rw [map_rewriteNode_skip _ pre (fun n hn => hnone n (by simp [hn]))]
  rw [map_rewriteNode_skip _ mid (fun n hn => hnone n (by simp [hn]))]
  rw [map_rewriteNode_skip _ post (fun n hn => hnone n (by simp [hn]))]
  rw [hrwA, hrwB]

theorem spacerFor_id (g : List PipelineNode) :
    (spacerFor g).id = "parallel-" ++ joinDash (g.map (fun n => n.id)) := rfl

/-- A creator dispatched on a non-spacer kind never yields a spacer-typed
node. -/
theorem getNodeCreator_type_ne_spacer (t : NodeType) (nm : String) (d : NodeData)
    (h : t ≠ NodeType.spacerNode) :
    (getNodeCreator t nm d).type ≠ NodeType.spacerNode := by
  cases t
  case spacerNode => exact absurd rfl h
  all_goals intro hc; exact NodeType.noConfusion hc

/-- C1. On a node list where exactly the two nodes A and B share the
two-element `runAfter` `[x, y]` (and no other node has more than one
predecessor), the output is: exactly one spacer node, whose `runAfter` is
`[x, y]`, with A and B rewritten to run after the spacer only and every other
node carried over unchanged in place. -/
theorem handleParallelToParallelNodes_two_member_group
    (pre mid post : List PipelineNode) (A B : PipelineNode) (x y : String)
    (s : String) (spacer A2 B2 : PipelineNode)
    (hA : A.data.task.runAfter = [x, y]) (hB : B.data.task.runAfter = [x, y])
    (hothers : ∀ n ∈ pre ++ mid ++ post, n.data.task.runAfter.length ≤ 1)
    (hAB : A.id ≠ B.id)
    (hids : ∀ n ∈ pre ++ mid ++ post, n.id ≠ A.id ∧ n.id ≠ B.id)
    (hnospacer : ∀ n ∈ pre ++ A :: mid ++ B :: post, n.type ≠ NodeType.spacerNode)
    (hsdef : s = "parallel-" ++ (A.id ++ "-" ++ B.id))
    (hspacerdef : spacer = createSpacerNode s { task := { name := s, runAfter := [x, y] } })
    (hA2 : A2 = (getNodeCreator A.type) A.id
      { A.data with task := { A.data.task with runAfter := [s] } })
    (hB2 : B2 = (getNodeCreator B.type) B.id
      { B.data with task := { B.data.task with runAfter := [s] } }) :
    handleParallelToParallelNodes (pre ++ A :: mid ++ B :: post) =
        spacer :: (pre ++ A2 :: mid ++ B2 :: post) ∧
      A2.id = A.id ∧ A2.data.task.runAfter = [s] ∧
      B2.id = B.id ∧ B2.data.task.runAfter = [s] ∧
      spacer.type = NodeType.spacerNode ∧
      spacer.data.task.runAfter = [x, y] ∧
      (handleParallelToParallelNodes (pre ++ A :: mid ++ B :: post)).filter
          (fun n => decide (n.type = NodeType.spacerNode)) = [spacer] := by
  subst hsdef hspacerdef hA2 hB2
  have main := handleParallelToParallelNodes_pair pre mid post A B x y hA hB hothers hAB hids
  have hspc : spacerFor [A, B] =
      createSpacerNode ("parallel-" ++ (A.id ++ "-" ++ B.id))
        { task := { name := "parallel-" ++ (A.id ++ "-" ++ B.id), runAfter := [x, y] } } := by
    unfold spacerFor
    simp [hA]
    rfl
  rw [hspc] at main
  refine ⟨main, getNodeCreator_id A.type A.id _, ?_, getNodeCreator_id B.type B.id _, ?_,
    ?_, ?_, ?_⟩
  · rw [getNodeCreator_data]
  · rw [getNodeCreator_data]
  · rfl
  · rfl
  · rw [main]
    rw [List.filter_cons_of_pos (by rfl)]
    have hrest : (pre ++
        (getNodeCreator A.type) A.id
            { A.data with task := { A.data.task with
                runAfter := ["parallel-" ++ (A.id ++ "-" ++ B.id)] } } ::
          mid ++
            (getNodeCreator B.type) B.id
                { B.data with task := { B.data.task with
                    runAfter := ["parallel-" ++ (A.id ++ "-" ++ B.id)] } } ::
              post).filter (fun n => decide (n.type = NodeType.spacerNode)) = [] := by
      rw [List.filter_eq_nil_iff]
      intro n hn
      simp only [List.mem_append, List.mem_cons] at hn
      have htype : n.type ≠ NodeType.spacerNode := by
        rcases hn with (h | h | h) | h | h
        · exact hnospacer n (by simp [h])
        · exact h ▸ getNodeCreator_type_ne_spacer A.type A.id _
            (hnospacer A (by simp))
        · exact hnospacer n (by simp [h])
        · exact h ▸ getNodeCreator_type_ne_spacer B.type B.id _
            (hnospacer B (by simp))
        · exact hnospacer n (by simp [h])
      simp [htype]
    rw [hrest]

/-- Concrete node a with predecessors x and y. -/
def cNodeA : PipelineNode :=
  createTaskNode "a" { task := { name := "a", runAfter := ["x", "y"] } }

/-- Concrete node b with predecessors x and y. -/
def cNodeB : PipelineNode :=
  createTaskNode "b" { task := { name := "b", runAfter := ["x", "y"] } }

/-- Concrete node c with the single predecessor x. -/
def cNodeC : PipelineNode :=
  createTaskNode "c" { task := { name := "c", runAfter := ["x"] } }

/-- The spacer id synthesized for the concrete pair (a, b). -/
def cSpacerId : String := "parallel-" ++ (cNodeA.id ++ "-" ++ cNodeB.id)

/-- The spacer node synthesized for the concrete pair (a, b). -/
def cSpacer : PipelineNode :=
  createSpacerNode cSpacerId { task := { name := cSpacerId, runAfter := ["x", "y"] } }

/-- Node a rewritten to run after the spacer. -/
def cNodeA2 : PipelineNode :=
  (getNodeCreator cNodeA.type) cNodeA.id
    { cNodeA.data with task := { cNodeA.data.task with runAfter := [cSpacerId] } }

/-- Node b rewritten to run after the spacer. -/
def cNodeB2 : PipelineNode :=
  (getNodeCreator cNodeB.type) cNodeB.id
    { cNodeB.data with task := { cNodeB.data.task with runAfter := [cSpacerId] } }

/-- Witness for C1 on the concrete list `[c, a, b]`. -/
theorem handleParallelToParallelNodes_two_member_group_witness :
    handleParallelToParallelNodes ([cNodeC] ++ cNodeA :: [] ++ cNodeB :: []) =
        cSpacer :: ([cNodeC] ++ cNodeA2 :: [] ++ cNodeB2 :: []) ∧
      cNodeA2.id = cNodeA.id ∧ cNodeA2.data.task.runAfter = [cSpacerId] ∧
      cNodeB2.id = cNodeB.id ∧ cNodeB2.data.task.runAfter = [cSpacerId] ∧
      cSpacer.type = NodeType.spacerNode ∧
      cSpacer.data.task.runAfter = ["x", "y"] ∧
      (handleParallelToParallelNodes ([cNodeC] ++ cNodeA :: [] ++ cNodeB :: [])).filter
          (fun n => decide (n.type = NodeType.spacerNode)) = [cSpacer] :=
  handleParallelToParallelNodes_two_member_group [cNodeC] [] [] cNodeA cNodeB "x" "y"
    cSpacerId cSpacer cNodeA2 cNodeB2 rfl rfl (by decide) (by decide) (by decide)
    (by decide) rfl rfl rfl rfl

/-- Counterexample for C3: the spacer id is NOT derived from the alphabetically
sorted member ids; it follows the input order, so the same two members in the
two possible orders give two different spacer ids. -/
theorem spacer_id_not_sorted_cex :
    (handleParallelToParallelNodes [cNodeA, cNodeB]).map (fun n => n.id) =
        ["parallel-a-b", "a", "b"] ∧
      (handleParallelToParallelNodes [cNodeB, cNodeA]).map (fun n => n.id) =
        ["parallel-b-a", "b", "a"] ∧
      ("parallel-b-a" : String) ≠ "parallel-a-b" :=
  ⟨rfl, rfl, by decide⟩

/-- C3 amended: for a qualifying group of two nodes the spacer id is
`parallel-` followed by the member ids joined in input-list order (not
sorted); it is still deterministic for identical input, but reordering the
members reorders the id. -/
theorem handleParallelToParallelNodes_spacer_id_input_order
    (pre mid post : List PipelineNode) (A B : PipelineNode) (x y : String)
    (hA : A.data.task.runAfter = [x, y]) (hB : B.data.task.runAfter = [x, y])
    (hothers : ∀ n ∈ pre ++ mid ++ post, n.data.task.runAfter.length ≤ 1)
    (hAB : A.id ≠ B.id)
    (hids : ∀ n ∈ pre ++ mid ++ post, n.id ≠ A.id ∧ n.id ≠ B.id) :
    (handleParallelToParallelNodes (pre ++ A :: mid ++ B :: post)).map (fun n => n.id) =
      ("parallel-" ++ (A.id ++ "-" ++ B.id)) ::
        (pre ++ A :: mid ++ B :: post).map (fun n => n.id) := by
  rw [handleParallelToParallelNodes_pair pre mid post A B x y hA hB hothers hAB hids]
  simp only [List.map_cons, List.map_append, getNodeCreator_id]
  rfl

/-- Witness for the amended C3 on the concrete list `[c, a, b]`. -/
theorem handleParallelToParallelNodes_spacer_id_input_order_witness :
    (handleParallelToParallelNodes ([cNodeC] ++ cNodeA :: [] ++ cNodeB :: [])).map
        (fun n => n.id) =
      ("parallel-" ++ (cNodeA.id ++ "-" ++ cNodeB.id)) ::
        ([cNodeC] ++ cNodeA :: [] ++ cNodeB :: []).map (fun n => n.id) :=
  handleParallelToParallelNodes_spacer_id_input_order [cNodeC] [] [] cNodeA cNodeB
    "x" "y" rfl rfl (by decide) (by decide) (by decide)

/-- Concrete invalid-task-list node a with predecessors x and y. -/
def invNodeA : PipelineNode :=
  createInvalidTaskListNode "a" { task := { name := "a", runAfter := ["x", "y"] } }

/-- Concrete invalid-task-list node b with predecessors x and y. -/
def invNodeB : PipelineNode :=
  createInvalidTaskListNode "b" { task := { name := "b", runAfter := ["x", "y"] } }

/-- Counterexample for C5: invalid-task-list members of a qualifying group are
NOT preserved apart from `runAfter`; `getNodeCreator` has no case for
`INVALID_TASK_LIST_NODE`, so they are recreated through the default
`createTaskNode` and their type changes to plain task. -/
theorem rewrite_changes_invalid_task_list_type_cex :
    (handleParallelToParallelNodes [invNodeA, invNodeB]).map (fun n => n.type) =
        [NodeType.spacerNode, NodeType.taskNode, NodeType.taskNode] ∧
      invNodeA.type = NodeType.invalidTaskListNode ∧
      invNodeB.type = NodeType.invalidTaskListNode :=
  ⟨rfl, rfl, rfl⟩

/-- C5 amended: the rewrite pass of `handleParallelToParallelNodes` changes
only `task.runAfter` of an impacted node — id, type, width, height and the
rest of the payload are preserved — provided the node kind is plain task,
task-list, builder or spacer (the kinds `getNodeCreator` dispatches on) and
the node carries its creator dimensions; an impacted invalid-task-list node is
instead recreated as a plain task node. -/
theorem rewriteNode_frame (m : List (String × List String)) (rs : List String)
    (n : PipelineNode)
    (hlook : lookupRunAfter m n.id = some rs) (hne : rs.length > 0)
    (ht : n.type = NodeType.taskNode ∨ n.type = NodeType.taskListNode ∨
      n.type = NodeType.builderNode ∨ n.type = NodeType.spacerNode)
    (hw : n.width = (if n.type = NodeType.spacerNode then 0 else NODE_WIDTH))
    (hh : n.height = NODE_HEIGHT) :
    rewriteNode m n =
      { n with data := { n.data with task := { n.data.task with runAfter := rs } } } := by
  unfold rewriteNode
  rw [hlook]
  simp only [if_pos hne]
  obtain ⟨nid, ndata, nh, nw, nt⟩ := n
  simp only at ht hw hh ⊢
  subst hh
  rcases ht with h | h | h | h <;> subst h <;>
    simp_all [getNodeCreator, createTaskNode, createTaskListNode, createBuilderNode,
      createSpacerNode, createGenericNode]

/-- A concrete task-list node impacted by a rewrite dictionary. -/
def taskListNodeExample : PipelineNode :=
  createTaskListNode "a" { task := { name := "a", runAfter := ["x", "y"] } }

/-- Witness for the amended C5: a task-list node keeps id, type, dimensions
and payload, with only `runAfter` replaced. -/
theorem rewriteNode_frame_witness :
    rewriteNode [("a", ["spacer-id"])] taskListNodeExample =
      { taskListNodeExample with data := { taskListNodeExample.data with
          task := { taskListNodeExample.data.task with runAfter := ["spacer-id"] } } } :=
  rewriteNode_frame [("a", ["spacer-id"])] ["spacer-id"] taskListNodeExample rfl
    (by decide) (Or.inr (Or.inl rfl)) (by decide) rfl

/-! Node-id uniqueness.  Synthetic ids (`parallel-...`, `finally-node`) contain
a hyphen, so the uniqueness argument works for task names free of hyphens. -/

/-- A string without the hyphen character. -/
def hyphenFree (s : String) : Prop :=
  ('-' : Char) ∉ s.data

instance : DecidablePred hyphenFree :=
  fun s => inferInstanceAs (Decidable (('-' : Char) ∉ s.data))

theorem string_eq_of_data_eq {s t : String} (h : s.data = t.data) : s = t :=
  String.ext h

/-- Splitting at the first hyphen is unambiguous when neither prefix contains
one. -/
theorem append_dash_inj : ∀ (a b r s : List Char),
    ('-' : Char) ∉ a → ('-' : Char) ∉ b →
    a ++ '-' :: r = b ++ '-' :: s → a = b ∧ r = s := by
  intro a
  induction a with
  | nil =>
    intro b r s ha hb h
    cases b with
    | nil => simpa using h
    | cons c bs =>
      simp only [List.nil_append, List.cons_append, List.cons.injEq] at h
      obtain ⟨h1, h2⟩ := h
      exact absurd (by rw [← h1]; exact List.mem_cons_self _ _) hb
  | cons x xs ih =>
    intro b r s ha hb h
    cases b with
    | nil =>
      simp only [List.nil_append, List.cons_append, List.cons.injEq] at h
      obtain ⟨h1, h2⟩ := h
      exact absurd (by rw [h1]; exact List.mem_cons_self _ _) ha
    | cons y bs =>
      simp only [List.cons_append, List.cons.injEq] at h
      obtain ⟨h1, h2⟩ := h
      have ha2 : ('-' : Char) ∉ xs := fun hm => ha (List.mem_cons_of_mem x hm)
      have hb2 : ('-' : Char) ∉ bs := fun hm => hb (List.mem_cons_of_mem y hm)
      obtain ⟨hab, hrs⟩ := ih bs r s ha2 hb2 h2
      exact ⟨by rw [h1, hab], hrs⟩

theorem joinDash_cons2 (x y : String) (t : List String) :
    joinDash (x :: y :: t) = x ++ "-" ++ joinDash (y :: t) := rfl

/-- On nonempty lists of hyphen-free strings, the hyphen join is injective. -/
theorem joinDash_inj : ∀ (l1 l2 : List String),
    l1 ≠ [] → l2 ≠ [] →
    (∀ z ∈ l1, hyphenFree z) → (∀ z ∈ l2, hyphenFree z) →
    joinDash l1 = joinDash l2 → l1 = l2 := by
  intro l1
  induction l1 with
  | nil => intro l2 h1; exact absurd rfl h1
  | cons x xs ih =>
    intro l2 h1 h2 hf1 hf2 heq
    cases l2 with
    | nil => exact absurd rfl h2
    | cons y ys =>
      cases xs with
      | nil =>
        cases ys with
        | nil => rw [show joinDash [x] = x from rfl, show joinDash [y] = y from rfl] at heq; rw [heq]
        | cons z zs =>
          exfalso
          rw [show joinDash [x] = x from rfl, joinDash_cons2] at heq
          have hmem : ('-' : Char) ∈ x.data := by
            rw [heq, String.data_append, String.data_append]
            simp
          exact hf1 x (List.mem_cons_self x []) hmem
      | cons w ws =>
        cases ys with
        | nil =>
          exfalso
          rw [show joinDash [y] = y from rfl, joinDash_cons2] at heq
          have hmem : ('-' : Char) ∈ y.data := by
            rw [← heq, String.data_append, String.data_append]
            simp
          exact hf2 y (List.mem_cons_self y []) hmem
        | cons z zs =>
          rw [joinDash_cons2, joinDash_cons2] at heq
          have hd := congrArg String.data heq
          rw [String.data_append, String.data_append, String.data_append,
            String.data_append] at hd
          have hd2 : x.data ++ '-' :: (joinDash (w :: ws)).data =
              y.data ++ '-' :: (joinDash (z :: zs)).data := by
            simpa [List.append_assoc] using hd
          have hfx : ('-' : Char) ∉ x.data := hf1 x (List.mem_cons_self x _)
          have hfy : ('-' : Char) ∉ y.data := hf2 y (List.mem_cons_self y _)
          obtain ⟨hxy, hjj⟩ := append_dash_inj x.data y.data _ _ hfx hfy hd2
          have hxs : (w :: ws) = (z :: zs) :=
            ih (z :: zs) (by simp) (by simp)
              (fun u hu => hf1 u (List.mem_cons_of_mem x hu))
              (fun u hu => hf2 u (List.mem_cons_of_mem y hu))
              (string_eq_of_data_eq hjj)
          rw [string_eq_of_data_eq hxy, hxs]

/-- A hyphen-free string never equals a `parallel-`-prefixed one. -/
theorem hyphenFree_ne_parallel (t : String) (j : String) (h : hyphenFree t) :
    t ≠ "parallel-" ++ j := by
  intro he
  apply h
  rw [he, String.data_append]
  simp [show ("parallel-" : String).data = ['p','a','r','a','l','l','e','l','-'] from rfl]

/-- The reserved finally-aggregate id never equals a `parallel-`-prefixed
spacer id. -/
theorem finallyNode_ne_parallel (j : String) :
    ("finally-node" : String) ≠ "parallel-" ++ j := by
  intro h
  have hd := congrArg String.data h
  rw [String.data_append,
    show ("finally-node" : String).data = ['f','i','n','a','l','l','y','-','n','o','d','e'] from rfl,
    show ("parallel-" : String).data = ['p','a','r','a','l','l','e','l','-'] from rfl] at hd
  simp at hd

/-- The reserved finally-aggregate id is not hyphen-free. -/
theorem finallyNode_not_hyphenFree : ¬ hyphenFree "finally-node" := by
  intro h
  exact h (by decide)

/-- `parallel-`-prefixed ids are injective in their suffix. -/
theorem parallel_prefix_inj (a b : String)
    (h : "parallel-" ++ a = "parallel-" ++ b) : a = b := by
  have hd := congrArg String.data h
  rw [String.data_append, String.data_append] at hd
  exact string_eq_of_data_eq (List.append_cancel_left hd)

/-- Pushing one node into its bucket permutes the bucket contents to the old
contents plus that node. -/
theorem insertRef_flatten_perm (m : List (String × List PipelineNode))
    (k : String) (n : PipelineNode) :
    List.Perm (((insertRef m k n).map Prod.snd).flatten)
      (((m.map Prod.snd).flatten) ++ [n]) := by
  induction m with
  | nil =>
    simp [insertRef]
  | cons hd rest ih =>
    obtain ⟨k0, ns⟩ := hd
    by_cases hk : k0 = k
    · simp only [insertRef, if_pos hk, List.map_cons, List.flatten_cons]
      rw [List.append_assoc, List.append_assoc]
      exact List.Perm.append_left ns List.perm_append_comm
    · simp only [insertRef, if_neg hk, List.map_cons, List.flatten_cons]
      rw [List.append_assoc]
      exact List.Perm.append_left ns ih

/-- Accumulated over any node list, the bucket contents are a permutation of
the multi-predecessor nodes (on top of what the accumulator already held). -/
theorem foldl_mrbStep_flatten_perm (nodes : List PipelineNode) :
    ∀ (acc : List (String × List PipelineNode)),
      List.Perm (((nodes.foldl mrbStep acc).map Prod.snd).flatten)
        (((acc.map Prod.snd).flatten) ++
          nodes.filter (fun n => decide (n.data.task.runAfter.length > 1))) := by
  induction nodes with
  | nil => intro acc; simp
  | cons a as ih =>
    intro acc
    rw [List.foldl_cons]
    by_cases ha : a.data.task.runAfter.length > 1
    · rw [show mrbStep acc a = insertRef acc (groupKey a.data.task.runAfter) a from if_pos ha]
      rw [List.filter_cons_of_pos (by simpa using ha)]
      refine (ih _).trans ?_
      refine (List.Perm.append_right _ (insertRef_flatten_perm acc _ a)).trans ?_
      rw [List.append_assoc]
      exact List.Perm.append_left _ (List.perm_middle.symm.trans (List.Perm.refl _))
    · rw [show mrbStep acc a = acc from if_neg ha]
      rw [List.filter_cons_of_neg (by simpa using ha)]
      exact ih acc

/-- The grouping dictionary of `handleParallelToParallelNodes` holds, across
all buckets, a permutation of the multi-predecessor input nodes. -/
theorem multipleRunBeforeMap_flatten_perm (nodes : List PipelineNode) :
    List.Perm (((multipleRunBeforeMap nodes).map Prod.snd).flatten)
      (nodes.filter (fun n => decide (n.data.task.runAfter.length > 1))) := by
  have := foldl_mrbStep_flatten_perm nodes []
  simpa [multipleRunBeforeMap] using this

/-- A duplicate-free flattening forces duplicate-free parts and pairwise
disjoint parts. -/
theorem nodup_flatten_parts {α : Type} (L : List (List α)) (h : L.flatten.Nodup) :
    (∀ g ∈ L, g.Nodup) ∧ L.Pairwise (fun a b => ∀ z ∈ a, z ∉ b) := by
  induction L with
  | nil => simp
  | cons g gs ih =>
    rw [List.flatten_cons, List.nodup_append] at h
    obtain ⟨hg, hrest, hdisj⟩ := h
    obtain ⟨h1, h2⟩ := ih hrest
    refine ⟨?_, ?_⟩
    · intro g2 hg2
      rcases List.mem_cons.mp hg2 with he | hm
      · exact he ▸ hg
      · exact h1 g2 hm
    · rw [List.pairwise_cons]
      refine ⟨?_, h2⟩
      intro b hb z hz hzb
      exact (hdisj hz) (List.mem_flatten.mpr ⟨b, hb, hzb⟩)

/-- The output ids of the normalization pass: the synthesized spacer ids (one
per group, `parallel-` plus the joined member ids) followed by the unchanged
input ids. -/
theorem handleParallelToParallelNodes_ids (nodes : List PipelineNode) :
    (handleParallelToParallelNodes nodes).map (fun n => n.id) =
      (multiParallelToParallelList nodes).map
          (fun g => "parallel-" ++ joinDash (g.map (fun n => n.id))) ++
        nodes.map (fun n => n.id) := by
  unfold handleParallelToParallelNodes
  by_cases h : (multiParallelToParallelList nodes).length = 0
  · rw [if_pos h, List.length_eq_zero.mp h]
    simp
  · rw [if_neg h, List.map_append, List.map_map, List.map_map]
    have e1 : (multiParallelToParallelList nodes).map ((fun n => n.id) ∘ spacerFor) =
        (multiParallelToParallelList nodes).map
          (fun g => "parallel-" ++ joinDash (g.map (fun n => n.id))) :=
      List.map_congr_left (fun g _ => spacerFor_id g)
    have e2 : nodes.map ((fun n => n.id) ∘
          rewriteNode (buildRunAfterMap (multiParallelToParallelList nodes))) =
        nodes.map (fun n => n.id) :=
      List.map_congr_left (fun n _ => rewriteNode_id _ n)
    rw [e1, e2]

/-- Main uniqueness lemma: over hyphen-free, duplicate-free input ids the
normalization output ids stay duplicate-free and never collide with the
reserved id `finally-node`. -/
theorem handleParallelToParallelNodes_ids_nodup (nodes : List PipelineNode)
    (h1 : (nodes.map (fun n => n.id)).Nodup)
    (h2 : ∀ n ∈ nodes, hyphenFree n.id) :
    ((handleParallelToParallelNodes nodes).map (fun n => n.id)).Nodup ∧
      ("finally-node" : String) ∉
        (handleParallelToParallelNodes nodes).map (fun n => n.id) := by
  rw [handleParallelToParallelNodes_ids]
  have hperm := multipleRunBeforeMap_flatten_perm nodes
  have hflat_ids_nodup :
      ((((multipleRunBeforeMap nodes).map Prod.snd).flatten).map (fun n => n.id)).Nodup := by
    have hp2 := hperm.map (fun n => n.id)
    have hfil : ((nodes.filter
        (fun n => decide (n.data.task.runAfter.length > 1))).map (fun n => n.id)).Nodup :=
      h1.sublist ((List.filter_sublist nodes).map (fun n => n.id))
    exact hp2.symm.nodup hfil
  have hmapflat :
      ((((multipleRunBeforeMap nodes).map Prod.snd).flatten).map (fun n => n.id)) =
        ((((multipleRunBeforeMap nodes).map Prod.snd).map
          (fun g => g.map (fun n => n.id))).flatten) := by
    rw [List.map_flatten]
  rw [hmapflat] at hflat_ids_nodup
  obtain ⟨hparts_nodup, hparts_disj⟩ := nodup_flatten_parts _ hflat_ids_nodup
  have hGsub : List.Sublist
      ((multiParallelToParallelList nodes).map (fun g => g.map (fun n => n.id)))
      (((multipleRunBeforeMap nodes).map Prod.snd).map (fun g => g.map (fun n => n.id))) :=
    (List.filter_sublist _).map _
  have hGmem_nodes : ∀ g ∈ multiParallelToParallelList nodes, ∀ n ∈ g, n ∈ nodes := by
    intro g hg n hn
    have hgm : g ∈ ((multipleRunBeforeMap nodes).map Prod.snd) :=
      List.mem_of_mem_filter hg
    have hfl : n ∈ (((multipleRunBeforeMap nodes).map Prod.snd).flatten) :=
      List.mem_flatten.mpr ⟨g, hgm, hn⟩
    exact List.mem_of_mem_filter (hperm.mem_iff.mp hfl)
  have hGne : ∀ g ∈ multiParallelToParallelList nodes, g.map (fun n => n.id) ≠ [] := by
    intro g hg
    have hlen : g.length > 1 := by simpa using List.of_mem_filter hg
    intro he
    have hg0 : g = [] := by
      cases g with
      | nil => rfl
      | cons a as => simp at he
    rw [hg0] at hlen
    simp at hlen
  have hGhf : ∀ g ∈ multiParallelToParallelList nodes,
      ∀ z ∈ g.map (fun n => n.id), hyphenFree z := by
    intro g hg z hz
    obtain ⟨n, hn, hnz⟩ := List.mem_map.mp hz
    exact hnz ▸ h2 n (hGmem_nodes g hg n hn)
  have hGdisj : ((multiParallelToParallelList nodes).map
      (fun g => g.map (fun n => n.id))).Pairwise (fun a b => ∀ z ∈ a, z ∉ b) :=
    hparts_disj.sublist hGsub
  rw [List.pairwise_map] at hGdisj
  have hS : ((multiParallelToParallelList nodes).map
      (fun g => "parallel-" ++ joinDash (g.map (fun n => n.id)))).Nodup := by
    rw [List.Nodup, List.pairwise_map]
    refine List.Pairwise.imp_of_mem ?_ hGdisj
    intro g1 g2 hg1 hg2 hdis heq
    have hjj : joinDash (g1.map (fun n => n.id)) = joinDash (g2.map (fun n => n.id)) :=
      parallel_prefix_inj _ _ heq
    have hids : g1.map (fun n => n.id) = g2.map (fun n => n.id) :=
      joinDash_inj _ _ (hGne g1 hg1) (hGne g2 hg2) (hGhf g1 hg1) (hGhf g2 hg2) hjj
    cases hch : g1.map (fun n => n.id) with
    | nil => exact hGne g1 hg1 hch
    | cons z zs =>
      have hz1 : z ∈ g1.map (fun n => n.id) := hch ▸ List.mem_cons_self z zs
      have hz2 : z ∈ g2.map (fun n => n.id) := hids ▸ hz1
      exact hdis z hz1 hz2
  have hSdisj : List.Disjoint
      ((multiParallelToParallelList nodes).map
        (fun g => "parallel-" ++ joinDash (g.map (fun n => n.id))))
      (nodes.map (fun n => n.id)) := by
    intro a haS hanodes
    obtain ⟨g, hg, hga⟩ := List.mem_map.mp haS
    obtain ⟨n, hn, hna⟩ := List.mem_map.mp hanodes
    have hhf : hyphenFree a := hna ▸ h2 n hn
    exact hyphenFree_ne_parallel a _ hhf hga.symm
  constructor
  · rw [List.nodup_append]
    exact ⟨hS, h1, hSdisj⟩
  · intro hmem
    rcases List.mem_append.mp hmem with hm | hm
    · obtain ⟨g, hg, hga⟩ := List.mem_map.mp hm
      exact finallyNode_ne_parallel _ hga.symm
    · obtain ⟨n, hn, hna⟩ := List.mem_map.mp hm
      exact finallyNode_not_hyphenFree (hna ▸ h2 n hn)

/-- Task names survive the (modelled) task extraction unchanged. -/
theorem getPipelineTasks_names (p : PipelineKind) (pr : Option PipelineRunKind) :
    (getPipelineTasks p pr).map (fun t => t.name) =
      ((p.spec.map (fun s => s.tasks)).getD []).map (fun t => t.name) := by
  unfold getPipelineTasks
  rw [List.map_map]
  refine List.map_congr_left ?_
  intro t ht
  cases pr <;> rfl

/-- A successful full transform's node list is exactly the finally-connection
of the normalized task nodes. -/
theorem getTopologyNodesEdges_ok (p : PipelineKind) (pr : Option PipelineRunKind)
    (out : List PipelineNode × List PipelineEdge)
    (h : getTopologyNodesEdges p pr = Except.ok out) :
    connectFinallyTasksToNodes (tasksToNodes (getPipelineTasks p pr) (some p) pr)
      (some p) pr = Except.ok out.1 := by
  unfold getTopologyNodesEdges at h
  have h2 : (match connectFinallyTasksToNodes
        (tasksToNodes (getPipelineTasks p pr) (some p) pr) (some p) pr with
      | Except.error e => Except.error e
      | Except.ok nodes => Except.ok (nodes, getEdgesFromNodes nodes)) =
      Except.ok out := h
  cases hc : connectFinallyTasksToNodes (tasksToNodes (getPipelineTasks p pr) (some p) pr)
      (some p) pr with
  | error e =>
    rw [hc] at h2
    exact absurd h2 (by simp)
  | ok nodes =>
    rw [hc] at h2
    simp only [] at h2
    have hpair := Except.ok.inj h2
    rw [← hpair]

/-- C8 amended: for pipelines whose main-task names are pairwise distinct and
hyphen-free, every node id of the full transform output — task ids, synthetic
spacer ids and the finally-aggregate id — is unique.  (Hyphens in task names
can break this: a task may collide with the reserved `finally-node` id or two
groups may produce the same joined spacer id.) -/
theorem getTopologyNodesEdges_unique_ids (p : PipelineKind)
    (pr : Option PipelineRunKind)
    (hnames : (((p.spec.map (fun s => s.tasks)).getD []).map (fun t => t.name)).Nodup)
    (hhf : ∀ t ∈ (p.spec.map (fun s => s.tasks)).getD [], hyphenFree t.name) :
    ∀ out, getTopologyNodesEdges p pr = Except.ok out →
      (out.1.map (fun n => n.id)).Nodup := by
  intro out hout
  have hc := getTopologyNodesEdges_ok p pr out hout
  have hbase_ids : ((getPipelineTasks p pr).map (fun task =>
      createTaskNode task.name
        { task := task, pipeline := some p, pipelineRun := pr })).map (fun n => n.id) =
      ((p.spec.map (fun s => s.tasks)).getD []).map (fun t => t.name) := by
    rw [List.map_map]
    rw [show ((fun n => n.id) ∘ fun task =>
        createTaskNode task.name
          { task := task, pipeline := some p, pipelineRun := pr }) =
        (fun t : TaskData => t.name) from rfl]
    exact getPipelineTasks_names p pr
  have hids_nodup : (((getPipelineTasks p pr).map (fun task =>
      createTaskNode task.name
        { task := task, pipeline := some p, pipelineRun := pr })).map
      (fun n => n.id)).Nodup := by
    rw [hbase_ids]
    exact hnames
  have hids_hf : ∀ n ∈ (getPipelineTasks p pr).map (fun task =>
      createTaskNode task.name
        { task := task, pipeline := some p, pipelineRun := pr }), hyphenFree n.id := by
    intro n hn
    obtain ⟨t, ht, rfl⟩ := List.mem_map.mp hn
    show hyphenFree t.name
    have hname_mem : t.name ∈
        ((p.spec.map (fun s => s.tasks)).getD []).map (fun t2 => t2.name) := by
      rw [← getPipelineTasks_names p pr]
      exact List.mem_map_of_mem _ ht
    obtain ⟨t0, ht0, ht0n⟩ := List.mem_map.mp hname_mem
    exact ht0n ▸ hhf t0 ht0
  obtain ⟨hnd, hfn⟩ := handleParallelToParallelNodes_ids_nodup _ hids_nodup hids_hf
  have htn : tasksToNodes (getPipelineTasks p pr) (some p) pr =
      handleParallelToParallelNodes ((getPipelineTasks p pr).map (fun task =>
        createTaskNode task.name
          { task := task, pipeline := some p, pipelineRun := pr })) := rfl
  cases hspec : p.spec with
  | none =>
    have hidm : connectFinallyTasksToNodes
        (tasksToNodes (getPipelineTasks p pr) (some p) pr) (some p) pr =
        Except.ok (tasksToNodes (getPipelineTasks p pr) (some p) pr) := by
      unfold connectFinallyTasksToNodes
      simp [hspec]
    rw [hidm] at hc
    have := Except.ok.inj hc
    rw [← this, htn]
    exact hnd
  | some s =>
    cases hfin : s.finallyTasks with
    | none =>
      have hidm : connectFinallyTasksToNodes
          (tasksToNodes (getPipelineTasks p pr) (some p) pr) (some p) pr =
          Except.ok (tasksToNodes (getPipelineTasks p pr) (some p) pr) := by
        unfold connectFinallyTasksToNodes
        simp [hspec, hfin]
      rw [hidm] at hc
      have := Except.ok.inj hc
      rw [← this, htn]
      exact hnd
    | some fs =>
      obtain ⟨fnode, heq, hid, htype, hra, hh⟩ :=
        connectFinallyTasksToNodes_shape
          (tasksToNodes (getPipelineTasks p pr) (some p) pr) p s fs pr hspec hfin
      rw [heq] at hc
      have := Except.ok.inj hc
      rw [← this, List.map_append, List.nodup_append]
      refine ⟨htn ▸ hnd, by simp, ?_⟩
      intro a ha hafin
      simp only [List.map_cons, List.map_nil, List.mem_cons, List.not_mem_nil,
        or_false] at hafin
      rw [hafin, hid] at ha
      exact (htn ▸ hfn) ha

/-- A pipeline whose main task is named like the reserved finally-aggregate
id. -/
def dupPipeline : PipelineKind :=
  { spec := some
      { tasks := [{ name := "finally-node", runAfter := [] }],
        finallyTasks := some [{ name := "f", runAfter := [] }] } }

/-- Counterexample for C8: with pairwise-distinct task names, ids are still
not unique — a task named `finally-node` collides with the appended
finally-aggregate node. -/
theorem getTopologyNodesEdges_duplicate_id_cex :
    (getTopologyNodesEdges dupPipeline none).map (fun pair => pair.1.map (fun n => n.id)) =
        Except.ok ["finally-node", "finally-node"] ∧
      ¬ (["finally-node", "finally-node"] : List String).Nodup :=
  ⟨rfl, by decide⟩

/-- The concrete output of the full transform on the witness pipeline. -/
def witnessOut : List PipelineNode × List PipelineEdge :=
  match getTopologyNodesEdges witnessPipeline none with
  | Except.ok out => out
  | Except.error _ => ([], [])

/-- Witness for the amended C8 at the concrete witness pipeline (which
exercises task, spacer and finally-aggregate ids). -/
theorem getTopologyNodesEdges_unique_ids_witness :
    getTopologyNodesEdges witnessPipeline none = Except.ok witnessOut ∧
      (witnessOut.1.map (fun n => n.id)).Nodup :=
  ⟨rfl, getTopologyNodesEdges_unique_ids witnessPipeline none (by decide) (by decide)
    witnessOut rfl⟩
